import Mathlib

/-!
Verification of the shard collection, format-detection, validation and
recovery-orchestration engine of the GLOV-Secure-mnemonic-shards repository.

The JavaScript source is embedded shallowly:

* A decoded shard record (`JSON.parse(atob(x))` on a well-formed envelope)
  becomes the structure `ShareData`.  JS truthiness of its fields is modelled
  explicitly: a falsy `threshold` is `0`, an `undefined` index is `none`, a
  falsy `data` is the empty string.
* The external builtins `atob`/`JSON.parse` are pure in JS; the composite
  `JSON.parse(atob(x))` (exceptions mapped to `none`) is passed in as an
  oracle `dec : String → Option ShareData`, so every theorem is proved for
  every behaviour of the builtin pair, and counterexamples instantiate it.
* JS `Set` (insertion ordered, deduplicating) becomes a list built with
  `insertUniq`.
* The external combine primitive (`slip39`/`shamir` combine) is an oracle
  `CombineArg → Except JsError String`; a thrown JS exception is the
  `.error` case, and `JsError` distinguishes `TypeError` from other errors.
-/

namespace MnemonicShards

/-- A decoded shard record: the fields of the JSON envelope that the code
inspects.  `threshold = 0` models a falsy/missing threshold, `index = none`
models an `undefined` index, `data = ""` models falsy data. -/
structure ShareData where
  threshold : Nat
  index : Option Int
  data : String
deriving DecidableEq, Repr

/-- JS truthiness of the `index` field: defined and nonzero. -/
def truthyIndex (i : Option Int) : Bool :=
  match i with
  | some v => v != 0
  | none => false

/-! ### The JS string builtins the code calls, over the character list
(`String.trim`, `String.splitOn` and `String.startsWith` of the Lean
library are defined by well-founded recursion on byte positions and do not
evaluate inside the kernel, so the same functions are spelled out
structurally here). -/

/-- Drop leading whitespace characters. -/
def dropLeadingWS : List Char → List Char
  | [] => []
  | c :: cs => if c.isWhitespace then dropLeadingWS cs else c :: cs

/-- JS `String.prototype.trim`: strip whitespace from both ends. -/
def jsTrim (s : String) : String :=
  String.mk ((dropLeadingWS (dropLeadingWS s.data).reverse).reverse)

/-- Split a character list at every newline (JS `split('\n')` semantics:
the empty text yields one empty field). -/
def splitAtNewlines : List Char → List (List Char)
  | [] => [[]]
  | c :: cs =>
    if c == '\n' then [] :: splitAtNewlines cs
    else
      match splitAtNewlines cs with
      | [] => [[c]]
      | field :: fields => (c :: field) :: fields

/-- JS `content.split('\n')`. -/
def jsSplitNewlines (s : String) : List String :=
  (splitAtNewlines s.data).map String.mk

/-- Whether `p` is an initial segment of `s`, character by character. -/
def leadingMatch : List Char → List Char → Bool
  | [], _ => true
  | _ :: _, [] => false
  | p :: ps, c :: cs => p == c && leadingMatch ps cs

/-- JS `s.startsWith(p)`. -/
def jsStartsWith (s p : String) : Bool := leadingMatch p.data s.data

/-- `isValidShareFormat` (src/unnamed/part_002, lines 23-36): non-empty
string, decodes, and `threshold`, `index`, `data` are all truthy. -/
def isValidShareFormat (dec : String → Option ShareData) (shareString : String) : Bool :=
  if shareString = "" then false
  else
    match dec (jsTrim shareString) with
    | some shareData =>
        shareData.threshold != 0 && truthyIndex shareData.index && shareData.data != ""
    | none => false

/-- `parseShareData` (src/unnamed/part_002, lines 43-55): `null` unless the
format check passes, then the decode of the trimmed string. -/
def parseShareData (dec : String → Option ShareData) (shareString : String) :
    Option ShareData :=
  if isValidShareFormat dec shareString then dec (jsTrim shareString) else none

/-- One element of the array handed to `validateShareCollection`: a string
or an already-decoded object (part_002, lines 110-116). -/
inductive ShareInput where
  | str (s : String)
  | obj (d : ShareData)
deriving DecidableEq, Repr

/-- The shard record the loop body of `validateShareCollection` works with:
the object itself, or the parse of the string (part_002, lines 108-116). -/
def entryData (dec : String → Option ShareData) (inp : ShareInput) : Option ShareData :=
  match inp with
  | .obj d => some d
  | .str s => parseShareData dec s

/-- The acceptance test of part_002 line 118:
`shareData.threshold && shareData.index !== undefined && shareData.data`. -/
def acceptEntry (d : ShareData) : Bool :=
  d.threshold != 0 && d.index.isSome && d.data != ""

/-- JS `Set.add`: append iff not already present (insertion order kept). -/
def insertUniq {α : Type} [DecidableEq α] (l : List α) (a : α) : List α :=
  if a ∈ l then l else l ++ [a]

/-- Adding a whole list of elements to a JS `Set`, one by one. -/
def insertAll {α : Type} [DecidableEq α] (l : List α) (xs : List α) : List α :=
  xs.foldl insertUniq l

/-- Lookup in the `thresholdCounts` object (part_002 line 137), `0` when
the key is absent (`thresholdCounts[t] || 0`). -/
def countOf (counts : List (Nat × Nat)) (t : Nat) : Nat :=
  match counts.find? (fun p => p.1 == t) with
  | some p => p.2
  | none => 0

/-- `thresholdCounts[t] = (thresholdCounts[t] || 0) + 1` (part_002 line 137). -/
def bumpCount (counts : List (Nat × Nat)) (t : Nat) : List (Nat × Nat) :=
  match counts.find? (fun p => p.1 == t) with
  | some _ => counts.map (fun p => if p.1 == t then (p.1, p.2 + 1) else p)
  | none => counts ++ [(t, 1)]

/-- The majority-vote selection over `thresholdCandidates` (part_002 lines
135-146): build counts over the candidate set, then keep the first candidate
whose count strictly exceeds the running maximum (which starts at `0`, with
`threshold` still holding its initial value `0`). -/
def selectThreshold (cands : List Nat) : Nat :=
  let counts := cands.foldl bumpCount []
  (cands.foldl
    (fun acc t => if countOf counts t > acc.1 then (countOf counts t, t) else acc)
    ((0 : Nat), (0 : Nat))).2

/-- The threshold determination of part_002 lines 130-150: first valid
shard's threshold when truthy, else majority vote over the candidate set,
else the default `3`. -/
def determineThreshold (validShareData : List ShareData)
    (thresholdCandidates : List Nat) : Nat :=
  match validShareData with
  | d :: _ =>
    if d.threshold != 0 then d.threshold
    else if thresholdCandidates.length > 0 then selectThreshold thresholdCandidates
    else 3
  | [] =>
    if thresholdCandidates.length > 0 then selectThreshold thresholdCandidates
    else 3

/-- `Line ${index + 1}: Invalid shard format` (part_002 line 126). -/
def invalidLineMsg (n : Nat) : String :=
  "Line " ++ toString n ++ ": Invalid shard format"

/-- Part_002 line 154. -/
def noValidSharesMsg : String := "No valid shards detected."

/-- Part_002 line 156. -/
def insufficientMsg (threshold validCount : Nat) : String :=
  "At least " ++ toString threshold ++ " shards are required — only "
    ++ toString validCount ++ " provided."

/-- Part_002 line 161. -/
def duplicateMsg : String := "Duplicate shard indices detected."

/-- The mutable locals of `validateShareCollection` (part_002 lines 100-105). -/
structure VSCState where
  errors : List String
  validCount : Nat
  shareIndices : List (Option Int)
  thresholdCandidates : List Nat
  validShareData : List ShareData
deriving DecidableEq, Repr

/-- Their initial values (part_002 lines 100-105). -/
def initVSC : VSCState := ⟨[], 0, [], [], []⟩

/-- One iteration of the `forEach` of part_002 lines 107-128 at position
`p.1` on input `p.2`. -/
def vscStep (dec : String → Option ShareData) (st : VSCState) (p : Nat × ShareInput) :
    VSCState :=
  match entryData dec p.2 with
  | some d =>
    if acceptEntry d then
      { st with
        validCount := st.validCount + 1,
        validShareData := st.validShareData ++ [d],
        thresholdCandidates :=
          if d.threshold != 0 then insertUniq st.thresholdCandidates d.threshold
          else st.thresholdCandidates,
        shareIndices := insertUniq st.shareIndices d.index }
    else { st with errors := st.errors ++ [invalidLineMsg (p.1 + 1)] }
  | none => { st with errors := st.errors ++ [invalidLineMsg (p.1 + 1)] }

/-- The record `validateShareCollection` returns (part_002 lines 164-170). -/
structure VSCResult where
  isValid : Bool
  validCount : Nat
  threshold : Nat
  errors : List String
  shareIndices : List (Option Int)
deriving DecidableEq, Repr

/-- The tail of `validateShareCollection` (part_002 lines 130-170): determine
the threshold, push the aggregate errors, and assemble the result. -/
def vscAssemble (st : VSCState) : VSCResult :=
  let threshold := determineThreshold st.validShareData st.thresholdCandidates
  let errors1 :=
    if st.validCount = 0 then st.errors ++ [noValidSharesMsg]
    else if st.validCount < threshold then
      st.errors ++ [insufficientMsg threshold st.validCount]
    else st.errors
  let errors2 :=
    if st.shareIndices.length ≠ st.validCount then errors1 ++ [duplicateMsg]
    else errors1
  { isValid := errors2.length == 0 && decide (threshold ≤ st.validCount),
    validCount := st.validCount,
    threshold := threshold,
    errors := errors2,
    shareIndices := st.shareIndices }

/-- `validateShareCollection` (src/unnamed/part_002, lines 99-171). -/
def validateShareCollection (dec : String → Option ShareData)
    (shareStrings : List ShareInput) : VSCResult :=
  vscAssemble (shareStrings.enum.foldl (vscStep dec) initVSC)

/-! ### Characterisation of the validation loop -/

/-- The shards the loop accepts, in input order: each entry's decoded record
when it exists and passes the acceptance test of line 118. -/
def acceptedShares (dec : String → Option ShareData) (l : List ShareInput) :
    List ShareData :=
  (l.filterMap (entryData dec)).filter (fun d => acceptEntry d)

/-- The per-line error messages the loop pushes, for inputs numbered from
`n` (0-based; the message shows `n + 1`). -/
def perLineErrors (dec : String → Option ShareData) : Nat → List ShareInput → List String
  | _, [] => []
  | n, inp :: rest =>
    match entryData dec inp with
    | some d =>
      if acceptEntry d then perLineErrors dec (n + 1) rest
      else invalidLineMsg (n + 1) :: perLineErrors dec (n + 1) rest
    | none => invalidLineMsg (n + 1) :: perLineErrors dec (n + 1) rest

/-- The loop state after the whole `forEach`, in closed form. -/
def vscFinalState (dec : String → Option ShareData) (l : List ShareInput) : VSCState :=
  VSCState.mk
    (perLineErrors dec 0 l)
    (acceptedShares dec l).length
    (insertAll [] ((acceptedShares dec l).map ShareData.index))
    (insertAll [] ((acceptedShares dec l).map ShareData.threshold))
    (acceptedShares dec l)

theorem insertAll_nil {α : Type} [DecidableEq α] (l : List α) : insertAll l [] = l := rfl

theorem insertAll_cons {α : Type} [DecidableEq α] (l : List α) (a : α) (xs : List α) :
    insertAll l (a :: xs) = insertAll (insertUniq l a) xs := rfl

theorem accepted_threshold_ne_zero {d : ShareData} (h : acceptEntry d = true) :
    d.threshold ≠ 0 := by
  unfold acceptEntry at h
  simp only [Bool.and_eq_true, bne_iff_ne, ne_eq] at h
  exact h.1.1

theorem mem_acceptedShares_accepts {dec : String → Option ShareData}
    {l : List ShareInput} {d : ShareData} (h : d ∈ acceptedShares dec l) :
    acceptEntry d = true :=
  List.of_mem_filter h

/-- Running the loop from any state `st` over inputs numbered from `n`
appends the per-line errors, counts and collects the accepted shards, and
adds their indices and thresholds to the two sets. -/
theorem vsc_foldl_spec (dec : String → Option ShareData) (l : List ShareInput) :
    ∀ (n : Nat) (st : VSCState),
      List.foldl (vscStep dec) st (List.enumFrom n l) =
        VSCState.mk
          (st.errors ++ perLineErrors dec n l)
          (st.validCount + (acceptedShares dec l).length)
          (insertAll st.shareIndices ((acceptedShares dec l).map ShareData.index))
          (insertAll st.thresholdCandidates ((acceptedShares dec l).map ShareData.threshold))
          (st.validShareData ++ acceptedShares dec l) := by
  induction l with
  | nil =>
    intro n st
    simp [List.enumFrom, perLineErrors, acceptedShares, insertAll_nil]
  | cons inp rest ih =>
    intro n st
    rw [show List.enumFrom n (inp :: rest) = (n, inp) :: List.enumFrom (n + 1) rest from rfl,
      List.foldl_cons, ih (n + 1) (vscStep dec st (n, inp))]
    cases hd : entryData dec inp with
    | none =>
      simp [vscStep, hd, perLineErrors, acceptedShares, List.filterMap_cons]
    | some d =>
      cases ha : acceptEntry d with
      | false =>
        simp [vscStep, hd, ha, perLineErrors, acceptedShares, List.filterMap_cons]
      | true =>
        have ht : (d.threshold != 0) = true := by
          simpa [bne_iff_ne] using accepted_threshold_ne_zero ha
        simp [vscStep, hd, ha, ht, perLineErrors, acceptedShares, List.filterMap_cons,
          insertAll_cons, Nat.add_comm, Nat.add_assoc, Nat.add_left_comm]

/-- The whole loop of `validateShareCollection`, in closed form. -/
theorem vsc_enum_foldl (dec : String → Option ShareData) (l : List ShareInput) :
    (l.enum).foldl (vscStep dec) initVSC = vscFinalState dec l := by
  rw [show l.enum = List.enumFrom 0 l from rfl, vsc_foldl_spec]
  simp [initVSC, vscFinalState]

/-- `validateShareCollection` factors through the closed-form loop state. -/
theorem validateShareCollection_eq (dec : String → Option ShareData) (l : List ShareInput) :
    validateShareCollection dec l = vscAssemble (vscFinalState dec l) := by
  rw [validateShareCollection, vsc_enum_foldl]

/-- Whether one entry is accepted by the loop, as a boolean. -/
def entryAccepted (dec : String → Option ShareData) (inp : ShareInput) : Bool :=
  match entryData dec inp with
  | some d => acceptEntry d
  | none => false

theorem perLineErrors_nil_of_all {dec : String → Option ShareData} {l : List ShareInput}
    (h : l.all (entryAccepted dec) = true) : ∀ n, perLineErrors dec n l = [] := by
  induction l with
  | nil => intro n; rfl
  | cons inp rest ih =>
    intro n
    simp only [List.all_cons, Bool.and_eq_true] at h
    unfold perLineErrors
    cases hd : entryData dec inp with
    | none =>
      have hi := h.1
      simp only [entryAccepted, hd] at hi
      exact (Bool.false_ne_true hi).elim
    | some d =>
      have hi := h.1
      simp only [entryAccepted, hd] at hi
      simp [hi, ih h.2 (n + 1)]

theorem acceptedShares_length_add_perLineErrors_length
    (dec : String → Option ShareData) (l : List ShareInput) :
    ∀ n, (acceptedShares dec l).length + (perLineErrors dec n l).length = l.length := by
  induction l with
  | nil => intro n; rfl
  | cons inp rest ih =>
    intro n
    unfold acceptedShares perLineErrors
    cases hd : entryData dec inp with
    | none =>
      have := ih (n + 1)
      unfold acceptedShares at this
      simp [List.filterMap_cons, hd]
      omega
    | some d =>
      cases ha : acceptEntry d with
      | false =>
        have := ih (n + 1)
        unfold acceptedShares at this
        simp [List.filterMap_cons, hd, ha]
        omega
      | true =>
        have := ih (n + 1)
        unfold acceptedShares at this
        simp [List.filterMap_cons, hd, ha]
        omega

theorem vscAssemble_errors_extend (st : VSCState) :
    ∃ rest, (vscAssemble st).errors = st.errors ++ rest := by
  simp only [vscAssemble]
  split
  · split
    · exact ⟨_, by rw [List.append_assoc]⟩
    · split
      · exact ⟨_, by rw [List.append_assoc]⟩
      · exact ⟨[duplicateMsg], rfl⟩
  · split
    · exact ⟨_, rfl⟩
    · split
      · exact ⟨_, rfl⟩
      · exact ⟨[], by simp⟩

theorem vscAssemble_noValid_mem (st : VSCState) (h : st.validCount = 0) :
    noValidSharesMsg ∈ (vscAssemble st).errors := by
  simp only [vscAssemble]
  split <;> simp [h]

theorem vscAssemble_insufficient_mem (st : VSCState) (h0 : 0 < st.validCount)
    (hlt : st.validCount < determineThreshold st.validShareData st.thresholdCandidates) :
    insufficientMsg (determineThreshold st.validShareData st.thresholdCandidates)
      st.validCount ∈ (vscAssemble st).errors := by
  have h0' : ¬ st.validCount = 0 := by omega
  simp only [vscAssemble]
  split <;> simp [h0', hlt]

theorem vscAssemble_duplicate_mem (st : VSCState)
    (hdup : st.shareIndices.length ≠ st.validCount) :
    duplicateMsg ∈ (vscAssemble st).errors := by
  simp only [vscAssemble]
  rw [if_pos hdup]
  simp

theorem vscAssemble_validCount (st : VSCState) :
    (vscAssemble st).validCount = st.validCount := rfl

theorem vscAssemble_threshold (st : VSCState) :
    (vscAssemble st).threshold = determineThreshold st.validShareData st.thresholdCandidates :=
  rfl

theorem vscAssemble_shareIndices (st : VSCState) :
    (vscAssemble st).shareIndices = st.shareIndices := rfl

/-- The threshold the loop state determines, in closed form: the first
accepted shard's threshold, or the default `3` when nothing was accepted
(the majority-vote branch never fires, because acceptance demands a truthy
threshold, so an empty `validShareData` forces an empty candidate set). -/
theorem finalThreshold_eq (dec : String → Option ShareData) (l : List ShareInput) :
    determineThreshold (vscFinalState dec l).validShareData
        (vscFinalState dec l).thresholdCandidates =
      match (acceptedShares dec l).head? with
      | some d => d.threshold
      | none => 3 := by
  cases hacc : acceptedShares dec l with
  | nil => simp [vscFinalState, hacc, determineThreshold, insertAll_nil]
  | cons d tl =>
    have hd : acceptEntry d = true :=
      mem_acceptedShares_accepts (by rw [hacc]; exact List.mem_cons_self d tl)
    have ht : (d.threshold != 0) = true := by
      simpa [bne_iff_ne] using accepted_threshold_ne_zero hd
    simp [vscFinalState, hacc, determineThreshold, ht]

/-! ### Claims about `validateShareCollection` -/

/-- Two accepted shards carrying the same index `1`. -/
def c1DupInput : List ShareInput :=
  [ShareInput.obj ⟨2, some 1, "a"⟩, ShareInput.obj ⟨2, some 1, "b"⟩]

/-- Claim C1, counterexample: on two parseable shards sharing index 1 the
code returns `validCount = 2` — both occurrences are counted, while only
one distinct index is collected, refuting that duplicates are excluded
from the count. -/
theorem validCount_counts_duplicates_cex :
    (validateShareCollection (fun _ => none) c1DupInput).validCount = 2
    ∧ (validateShareCollection (fun _ => none) c1DupInput).shareIndices.length = 1
    ∧ ¬ (validateShareCollection (fun _ => none) c1DupInput).validCount ≤ 1 := by
  decide

/-- Claim C1, amended: `validCount` counts every accepted shard, duplicate
indices included; a repeated index is instead reported through the
duplicate-indices error whenever the deduplicated index set is smaller
than `validCount`. -/
theorem validCount_spec (dec : String → Option ShareData) (l : List ShareInput) :
    (validateShareCollection dec l).validCount = (acceptedShares dec l).length
    ∧ ((validateShareCollection dec l).shareIndices.length
          ≠ (validateShareCollection dec l).validCount
        → duplicateMsg ∈ (validateShareCollection dec l).errors) := by
  rw [validateShareCollection_eq]
  refine ⟨by rw [vscAssemble_validCount]; exact rfl, ?_⟩
  intro h
  rw [vscAssemble_shareIndices, vscAssemble_validCount] at h
  exact vscAssemble_duplicate_mem _ h

/-- Claim C1, witness: the amended statement evaluated on the duplicate
pair; both shards count, and the duplicate error is present. -/
theorem validCount_spec_witness :
    (validateShareCollection (fun _ => none) c1DupInput).validCount = 2
    ∧ duplicateMsg ∈ (validateShareCollection (fun _ => none) c1DupInput).errors := by
  have h := validCount_spec (fun _ => none) c1DupInput
  exact ⟨by decide, h.2 (by decide)⟩

/-- Claim C4, counterexample: the empty collection has
`validCount = 0 < threshold = 3`, yet the insufficient-shares message is
absent; the distinct no-valid-shares message is reported instead. -/
theorem insufficient_error_zero_cex :
    (validateShareCollection (fun _ => none) []).validCount = 0
    ∧ (validateShareCollection (fun _ => none) []).threshold = 3
    ∧ insufficientMsg 3 0 ∉ (validateShareCollection (fun _ => none) []).errors
    ∧ (validateShareCollection (fun _ => none) []).errors = [noValidSharesMsg] := by
  decide

/-- Claim C4, amended: when `0 < validCount < threshold` the
insufficient-shares error carries `have = validCount` and
`need = threshold`; when `validCount = 0` the distinct no-valid-shards
error is emitted instead. -/
theorem insufficient_error_spec (dec : String → Option ShareData) (l : List ShareInput) :
    (0 < (validateShareCollection dec l).validCount →
      (validateShareCollection dec l).validCount < (validateShareCollection dec l).threshold →
      insufficientMsg (validateShareCollection dec l).threshold
        (validateShareCollection dec l).validCount ∈ (validateShareCollection dec l).errors)
    ∧ ((validateShareCollection dec l).validCount = 0 →
        noValidSharesMsg ∈ (validateShareCollection dec l).errors) := by
  rw [validateShareCollection_eq]
  constructor
  · intro h0 hlt
    rw [vscAssemble_validCount] at h0
    rw [vscAssemble_threshold, vscAssemble_validCount] at hlt
    rw [vscAssemble_threshold, vscAssemble_validCount]
    exact vscAssemble_insufficient_mem _ h0 hlt
  · intro h0
    rw [vscAssemble_validCount] at h0
    exact vscAssemble_noValid_mem _ h0

/-- One accepted shard demanding threshold 3. -/
def c4OneShare : List ShareInput := [ShareInput.obj ⟨3, some 1, "a"⟩]

/-- Claim C4, witness: one shard with threshold 3 produces the
insufficient-shares message for `have = 1, need = 3`; the empty collection
produces the no-valid-shards message. -/
theorem insufficient_error_spec_witness :
    insufficientMsg 3 1 ∈ (validateShareCollection (fun _ => none) c4OneShare).errors
    ∧ noValidSharesMsg ∈ (validateShareCollection (fun _ => none) ([] : List ShareInput)).errors := by
  have h1 := (insufficient_error_spec (fun _ => none) c4OneShare).1 (by decide) (by decide)
  have h2 := (insufficient_error_spec (fun _ => none) ([] : List ShareInput)).2 (by decide)
  refine ⟨?_, h2⟩
  have e1 : (validateShareCollection (fun _ => none) c4OneShare).threshold = 3 := by decide
  have e2 : (validateShareCollection (fun _ => none) c4OneShare).validCount = 1 := by decide
  rw [e1, e2] at h1
  exact h1

/-- An unparseable line followed by one accepted shard with threshold 1. -/
def c5MixedInput : List ShareInput :=
  [ShareInput.str "garbage", ShareInput.obj ⟨1, some 1, "d"⟩]

/-- Claim C5, counterexample: `validCount = 1 ≥ threshold = 1` with no
duplicate indices, yet `isValid = false`, because the unparseable first
line left an error and `isValid` also demands an empty error list. -/
theorem isValid_not_implied_cex :
    (validateShareCollection (fun _ => none) c5MixedInput).validCount = 1
    ∧ (validateShareCollection (fun _ => none) c5MixedInput).threshold = 1
    ∧ (validateShareCollection (fun _ => none) c5MixedInput).shareIndices.length = 1
    ∧ (validateShareCollection (fun _ => none) c5MixedInput).isValid = false := by
  decide

/-- Claim C5, amended: when additionally every entry of the list parses and
is accepted (so no per-line error exists), `validCount ≥ threshold` together
with distinct indices gives `isValid = true`. -/
theorem isValid_spec (dec : String → Option ShareData) (l : List ShareInput)
    (hall : l.all (entryAccepted dec) = true)
    (hth : (validateShareCollection dec l).threshold
      ≤ (validateShareCollection dec l).validCount)
    (hnodup : (validateShareCollection dec l).shareIndices.length
      = (validateShareCollection dec l).validCount) :
    (validateShareCollection dec l).isValid = true := by
  rw [validateShareCollection_eq] at hth hnodup ⊢
  rw [vscAssemble_threshold, vscAssemble_validCount, finalThreshold_eq] at hth
  rw [vscAssemble_shareIndices, vscAssemble_validCount] at hnodup
  have herr : perLineErrors dec 0 l = [] := perLineErrors_nil_of_all hall 0
  have hvceq : (vscFinalState dec l).validCount = (acceptedShares dec l).length := rfl
  rw [hvceq] at hth
  have hpos : 0 < (acceptedShares dec l).length := by
    cases hacc : acceptedShares dec l with
    | nil => rw [hacc] at hth; simp at hth
    | cons d tl => simp
  have hvc0 : ¬ ((vscFinalState dec l).validCount = 0) := by
    rw [hvceq]; omega
  have hlt : ¬ ((vscFinalState dec l).validCount
      < determineThreshold (vscFinalState dec l).validShareData
          (vscFinalState dec l).thresholdCandidates) := by
    rw [finalThreshold_eq, hvceq]; omega
  have hdup : ¬ ((vscFinalState dec l).shareIndices.length
      ≠ (vscFinalState dec l).validCount) := fun hne => hne hnodup
  have herr' : (vscFinalState dec l).errors = [] := herr
  simp only [vscAssemble]
  rw [if_neg hdup, if_neg hvc0, if_neg hlt, herr']
  simp only [List.length_nil, beq_self_eq_true, Bool.true_and, decide_eq_true_eq]
  rw [finalThreshold_eq, hvceq]
  exact hth

/-- A single accepted shard with threshold 1. -/
def c5AllValidInput : List ShareInput := [ShareInput.obj ⟨1, some 1, "d"⟩]

/-- Claim C5, witness: one parseable shard with threshold 1 and a fresh
index makes the collection valid. -/
theorem isValid_spec_witness :
    (validateShareCollection (fun _ => none) c5AllValidInput).isValid = true :=
  isValid_spec (fun _ => none) c5AllValidInput (by decide) (by decide) (by decide)

/-- Modelled from the spec's words, for comparison with the code: how often
a threshold value occurs among the accepted envelopes' thresholds. -/
def countOccurrences (thresholds : List Nat) (t : Nat) : Nat :=
  (thresholds.filter (fun x => x == t)).length

/-- Envelopes whose thresholds are falsy, 2, 3, 3: the shape the dead
majority-vote branch would have to handle if the acceptance test allowed a
missing threshold, as the code's own comment describes. -/
def c6HypotheticalShares : List ShareData :=
  [⟨0, some 1, "a"⟩, ⟨2, some 2, "b"⟩, ⟨3, some 3, "c"⟩, ⟨3, some 4, "d"⟩]

/-- Claim C6, evaluation at the failing input: the candidate `Set` built
from thresholds 2, 3, 3 deduplicates to `[2, 3]`, every count degenerates
to one, and the fallback picks `2` — the first distinct candidate — even
though `3` occurs strictly more often among the envelopes, contradicting
the code's own comment (`use the most frequent one`, part_002 line 134). -/
theorem threshold_fallback_not_most_frequent :
    insertAll [] [2, 3, 3] = [2, 3]
    ∧ determineThreshold c6HypotheticalShares (insertAll [] [2, 3, 3]) = 2
    ∧ countOccurrences [2, 3, 3] 3 = 2
    ∧ countOccurrences [2, 3, 3] 2 = 1 := by
  decide

/-- Claim C8: the returned threshold is the first accepted shard's
threshold, or the hard-coded default 3 when nothing was accepted; the
majority-vote branch cannot fire because acceptance demands a truthy
threshold. -/
theorem threshold_first_valid_or_default (dec : String → Option ShareData)
    (l : List ShareInput) :
    (validateShareCollection dec l).threshold =
      match (acceptedShares dec l).head? with
      | some d => d.threshold
      | none => 3 := by
  rw [validateShareCollection_eq, vscAssemble_threshold, finalThreshold_eq]

/-! ### The reconstruction slice of `recoverMnemonic` (src/unnamed/part_009,
lines 456-480, and src/src/components/ShareManager.js lines 530-551)

The code after the parse/decrypt phase: reject an empty `validShareData`,
read the threshold off the first record, reject when too few records,
decode the first `threshold` records' `data` fields (via the external
`atob`, passed as an oracle), invoke the external combine primitive with
the string payloads, and on any thrown error retry once with byte
payloads (`catch (_)` — line 470 of part_009 catches every exception). -/

/-- The argument of one call to the external combine primitive. -/
inductive CombineArg where
  | strs (payloads : List String)
  | bytes (payloads : List (List Nat))
deriving DecidableEq, Repr

/-- A thrown JS exception, as the combine oracle reports it: a `TypeError`
or any other error. -/
inductive JsError where
  | typeError (msg : String)
  | otherError (msg : String)
deriving DecidableEq, Repr

/-- How one run of the reconstruction slice ends. -/
inductive RecoverOutcome where
  | errMsg (msg : String)
  | success (mnemonic : String)
  | failure (e : JsError)
deriving DecidableEq, Repr

/-- The observable behaviour of one run: the payloads of the string-encoded
combine call if one was made, the payloads of the byte-encoded call if one
was made, and the outcome. -/
structure RecoverResult where
  stringCallArg : Option (List String)
  byteCallArg : Option (List (List Nat))
  outcome : RecoverOutcome
deriving DecidableEq, Repr

/-- `bytes[i] = bin.charCodeAt(i)` (part_009 lines 471-475). -/
def strToBytes (s : String) : List Nat := s.toList.map Char.toNat

/-- `validShareData[0].threshold` (part_009 line 460); only read when the
list is non-empty. -/
def firstThreshold : List ShareData → Nat
  | [] => 0
  | d :: _ => d.threshold

/-- `t('errors.noValidShares')` (part_009 line 457), kept as its key. -/
def noValidSharesKey : String := "errors.noValidShares"

/-- `t('errors.insufficientShares', threshold, length)` (part_009 line 462). -/
def insufficientSharesKey (need have_ : Nat) : String :=
  "errors.insufficientShares " ++ toString need ++ " " ++ toString have_

/-- The reconstruction slice of `recoverMnemonic` (part_009 lines 456-480). -/
def recoverFromValidShares (atobF : String → String)
    (combineF : CombineArg → Except JsError String)
    (validShareData : List ShareData) : RecoverResult :=
  match validShareData with
  | [] => ⟨none, none, .errMsg noValidSharesKey⟩
  | d :: rest =>
    let threshold := d.threshold
    if (d :: rest).length < threshold then
      ⟨none, none, .errMsg (insufficientSharesKey threshold (d :: rest).length)⟩
    else
      let sharePayloadStrings := ((d :: rest).take threshold).map (fun x => atobF x.data)
      match combineF (.strs sharePayloadStrings) with
      | .ok combined => ⟨some sharePayloadStrings, none, .success combined⟩
      | .error _ =>
        match combineF (.bytes (sharePayloadStrings.map strToBytes)) with
        | .ok combined =>
          ⟨some sharePayloadStrings, some (sharePayloadStrings.map strToBytes),
            .success combined⟩
        | .error e =>
          ⟨some sharePayloadStrings, some (sharePayloadStrings.map strToBytes),
            .failure e⟩

/-- Modelled from the spec's words, for comparison with the code: keep the
first occurrence of each index. -/
def specDedupFirst (l : List ShareData) : List ShareData :=
  l.foldl (fun acc d => if acc.any (fun x => x.index == d.index) then acc else acc ++ [d]) []

/-- Modelled from the spec's words, for comparison with the code: the
payloads of the first `threshold` distinct envelopes ordered by ascending
index, first occurrence winning on duplicate indices. -/
def specReconstructionPayloads (atobF : String → String) (l : List ShareData) :
    List String :=
  (((specDedupFirst l).insertionSort
      (fun a b => a.index.getD 0 ≤ b.index.getD 0)).take (firstThreshold l)).map
    (fun d => atobF d.data)

/-- Out-of-order envelopes: indices 3, 1, 2, threshold 2. -/
def c2Shares : List ShareData :=
  [⟨2, some 3, "c"⟩, ⟨2, some 1, "a"⟩, ⟨2, some 2, "b"⟩]

/-- A combine oracle that accepts anything. -/
def combineOkOracle : CombineArg → Except JsError String := fun _ => .ok "mnemonic"

/-- Claim C2, counterexample: with envelopes carrying indices 3, 1, 2 and
threshold 2, the code hands combine the payloads of the first two records
in intake order (`["c", "a"]`), not the payloads of the first two distinct
envelopes sorted by ascending index (`["a", "b"]`). -/
theorem recover_payloads_unsorted_cex :
    (recoverFromValidShares id combineOkOracle c2Shares).stringCallArg = some ["c", "a"]
    ∧ specReconstructionPayloads id c2Shares = ["a", "b"]
    ∧ (recoverFromValidShares id combineOkOracle c2Shares).stringCallArg
        ≠ some (specReconstructionPayloads id c2Shares) := by
  decide

/-- Claim C2, amended: the payloads handed to the external combine
primitive are the decoded `data` fields of the first `threshold` resolved
envelopes in intake order — no sorting by index and no deduplication is
performed. -/
theorem recover_payloads_spec (atobF : String → String)
    (combineF : CombineArg → Except JsError String) (l : List ShareData)
    (hne : l ≠ []) (hth : firstThreshold l ≤ l.length) :
    (recoverFromValidShares atobF combineF l).stringCallArg =
      some ((l.take (firstThreshold l)).map (fun d => atobF d.data)) := by
  match l with
  | [] => exact absurd rfl hne
  | d :: rest =>
    have hft : firstThreshold (d :: rest) = d.threshold := rfl
    have hcond : ¬ ((d :: rest).length < d.threshold) := by rw [hft] at hth; omega
    unfold recoverFromValidShares
    dsimp only
    rw [if_neg hcond, hft]
    cases combineF (.strs (((d :: rest).take d.threshold).map (fun x => atobF x.data))) with
    | ok m => rfl
    | error e =>
      cases combineF (.bytes ((((d :: rest).take d.threshold).map
          (fun x => atobF x.data)).map strToBytes)) with
      | ok m => rfl
      | error e2 => rfl

/-- Claim C2, witness: a single envelope with threshold 1 — the string call
receives exactly its decoded payload. -/
theorem recover_payloads_spec_witness :
    (recoverFromValidShares id combineOkOracle [⟨1, some 1, "p"⟩]).stringCallArg
      = some ["p"] :=
  (recover_payloads_spec id combineOkOracle [⟨1, some 1, "p"⟩] (by decide)
    (by decide)).trans (by decide)

/-- A single envelope with threshold 1 for the dual-call claim. -/
def c7Shares : List ShareData := [⟨1, some 1, "p"⟩]

/-- A combine oracle that throws a non-type error on string payloads and
accepts byte payloads. -/
def c7Oracle : CombineArg → Except JsError String := fun a =>
  match a with
  | .strs _ => .error (.otherError "shares corrupted")
  | .bytes _ => .ok "mnemonic"

/-- Claim C7, counterexample: the string-encoded call fails with an error
that is not a type error, and the byte-encoded call is still performed —
`catch (_)` falls back on every thrown error, not only on type errors. -/
theorem recover_byte_fallback_any_error_cex :
    c7Oracle (.strs ["p"]) = .error (.otherError "shares corrupted")
    ∧ (recoverFromValidShares id c7Oracle c7Shares).byteCallArg.isSome = true
    ∧ (recoverFromValidShares id c7Oracle c7Shares).outcome = .success "mnemonic" :=
  ⟨rfl, by decide, by decide⟩

/-- Claim C7, amended: the combine primitive is always invoked with the
string-encoded payloads first, and the byte-encoded invocation is
performed exactly when the string-oriented call raises any error (of
whatever kind), with the byte encoding of the same payloads. -/
theorem recover_dual_call_spec (atobF : String → String)
    (combineF : CombineArg → Except JsError String) (l : List ShareData)
    (hne : l ≠ []) (hth : firstThreshold l ≤ l.length) :
    (recoverFromValidShares atobF combineF l).stringCallArg =
      some ((l.take (firstThreshold l)).map (fun d => atobF d.data))
    ∧ (recoverFromValidShares atobF combineF l).byteCallArg =
        (match combineF (.strs ((l.take (firstThreshold l)).map (fun d => atobF d.data))) with
         | .ok _ => none
         | .error _ =>
           some (((l.take (firstThreshold l)).map (fun d => atobF d.data)).map strToBytes)) := by
  refine ⟨recover_payloads_spec atobF combineF l hne hth, ?_⟩
  match l with
  | [] => exact absurd rfl hne
  | d :: rest =>
    have hft : firstThreshold (d :: rest) = d.threshold := rfl
    have hcond : ¬ ((d :: rest).length < d.threshold) := by rw [hft] at hth; omega
    unfold recoverFromValidShares
    dsimp only
    rw [if_neg hcond, hft]
    cases combineF (.strs (((d :: rest).take d.threshold).map (fun x => atobF x.data))) with
    | ok m => rfl
    | error e =>
      cases combineF (.bytes ((((d :: rest).take d.threshold).map
          (fun x => atobF x.data)).map strToBytes)) with
      | ok m => rfl
      | error e2 => rfl

/-- Claim C7, witness: the amended statement at the concrete oracle — the
string call is made first and the byte call follows the thrown error. -/
theorem recover_dual_call_spec_witness :
    (recoverFromValidShares id c7Oracle c7Shares).stringCallArg = some ["p"]
    ∧ (recoverFromValidShares id c7Oracle c7Shares).byteCallArg = some [[112]] := by
  have h := recover_dual_call_spec id c7Oracle c7Shares (by decide) (by decide)
  exact ⟨h.1.trans (by decide), h.2.trans (by decide)⟩

/-! ### `parseShareContent` (src/src/components/RecoveryTabManager.js,
lines 478-525)

The classifier over one raw input unit: armor marker first, then a
single-line envelope decode, then a line-by-line scan, and a fallback that
tags the trimmed content as encrypted.  The builtin pair
`JSON.parse(atob(·))` is again the oracle `dec`. -/

/-- The armored-encryption text marker (line 485). -/
def pgpMarker : String := "-----BEGIN PGP MESSAGE-----"

/-- The field test of lines 491 and 511:
`shareData.threshold && shareData.index !== undefined && shareData.data`. -/
def validShareFields (d : ShareData) : Bool :=
  d.threshold != 0 && d.index.isSome && d.data != ""

/-- What `parseShareContent` returns: a decoded shard record, or the
`{ encrypted: true, content }` tag. -/
inductive ParsedShare where
  | plain (d : ShareData)
  | encrypted (content : String)
deriving DecidableEq, Repr

/-- Whether the decode of `s` yields a record passing the field test. -/
def decodesValidShare (dec : String → Option ShareData) (s : String) : Bool :=
  match dec s with
  | some d => validShareFields d
  | none => false

/-- Lines 499-502: split on newlines, trim each line, drop empty lines. -/
def contentLines (content : String) : List String :=
  ((jsSplitNewlines content).map jsTrim).filter (fun l => l != "")

/-- The per-line loop of lines 504-517: the first line that starts with the
armor marker or decodes to a record with valid fields wins; decode failures
and invalid records fall through to the next line. -/
def scanShareLines (dec : String → Option ShareData) : List String → Option ParsedShare
  | [] => none
  | line :: rest =>
    if jsStartsWith line pgpMarker then some (.encrypted line)
    else
      match dec line with
      | some d =>
        if validShareFields d then some (.plain d) else scanShareLines dec rest
      | none => scanShareLines dec rest

/-- `parseShareContent` (RecoveryTabManager.js lines 478-525): marker check
on the trimmed whole content, then a single-line decode attempt, then the
line scan, then the encrypted fallback carrying the trimmed content (the
same value the outer catch would return). -/
def parseShareContent (dec : String → Option ShareData) (content : String) : ParsedShare :=
  let trimmedContent := jsTrim content
  if jsStartsWith trimmedContent pgpMarker then .encrypted trimmedContent
  else
    match dec trimmedContent with
    | some d =>
      if validShareFields d then .plain d
      else
        match scanShareLines dec (contentLines content) with
        | some r => r
        | none => .encrypted trimmedContent
    | none =>
      match scanShareLines dec (contentLines content) with
      | some r => r
      | none => .encrypted trimmedContent

/-- Claim C3: when the trimmed input starts with the armor marker, the
classifier returns the encrypted-blob tag even when the very same string
would also decode to a valid shard record — the marker check runs before
any decode is attempted. -/
theorem parseShareContent_armor_precedence (dec : String → Option ShareData)
    (s : String) (d : ShareData)
    (hm : jsStartsWith (jsTrim s) pgpMarker = true)
    (hd : dec (jsTrim s) = some d) (hv : validShareFields d = true) :
    parseShareContent dec s = .encrypted (jsTrim s) := by
  unfold parseShareContent
  rw [if_pos hm]

/-- Claim C3, witness: a decode oracle that happily decodes the marker
string itself to a valid record; the classifier still returns the
encrypted tag. -/
theorem parseShareContent_armor_precedence_witness :
    parseShareContent (fun _ => some ⟨2, some 1, "x"⟩) pgpMarker
      = .encrypted pgpMarker := by
  have h := parseShareContent_armor_precedence (fun _ => some ⟨2, some 1, "x"⟩)
    pgpMarker ⟨2, some 1, "x"⟩ (by decide) rfl (by decide)
  exact h.trans (by decide)

/-- An input whose second line (but not whose trimmed whole) starts with
the armor marker. -/
def c9Input : String := "x\n-----BEGIN PGP MESSAGE-----"

/-- Claim C9, counterexample: the input satisfies the claim's hypotheses —
non-empty, the trimmed content does not start with the marker, and no line
decodes as a share (the oracle decodes nothing) — yet the returned content
is the marker line alone, not the whole trimmed input. -/
theorem parseShareContent_line_marker_cex :
    jsStartsWith (jsTrim c9Input) pgpMarker = false
    ∧ parseShareContent (fun _ => none) c9Input = .encrypted pgpMarker
    ∧ parseShareContent (fun _ => none) c9Input ≠ .encrypted (jsTrim c9Input) := by
  decide

theorem scanShareLines_eq_none (dec : String → Option ShareData) (ls : List String)
    (h : ∀ l ∈ ls, jsStartsWith l pgpMarker = false ∧ decodesValidShare dec l = false) :
    scanShareLines dec ls = none := by
  induction ls with
  | nil => rfl
  | cons a rest ih =>
    have ha := h a (List.mem_cons_self a rest)
    unfold scanShareLines
    rw [if_neg (by rw [ha.1]; exact Bool.false_ne_true)]
    have hrest := ih (fun l hl => h l (List.mem_cons_of_mem a hl))
    cases hda : dec a with
    | none => exact hrest
    | some d =>
      have hv := ha.2
      simp only [decodesValidShare, hda] at hv
      dsimp only
      rw [hv]
      simpa using hrest

/-- Claim C9, amended: when the trimmed content does not start with the
armor marker and does not itself decode to a valid share, and no nonempty
trimmed line starts with the marker or decodes to a valid share, the
classifier returns the encrypted tag carrying the trimmed input (it never
returns null and never rejects an input as unrecognized). -/
theorem parseShareContent_fallback_spec (dec : String → Option ShareData) (s : String)
    (hne : s ≠ "")
    (hm : jsStartsWith (jsTrim s) pgpMarker = false)
    (hsingle : decodesValidShare dec (jsTrim s) = false)
    (hlines : ∀ l ∈ contentLines s,
      jsStartsWith l pgpMarker = false ∧ decodesValidShare dec l = false) :
    parseShareContent dec s = .encrypted (jsTrim s) := by
  unfold parseShareContent
  rw [if_neg (by rw [hm]; exact Bool.false_ne_true)]
  have hscan := scanShareLines_eq_none dec (contentLines s) hlines
  cases hd : dec (jsTrim s) with
  | none =>
    dsimp only
    rw [hscan]
  | some d =>
    have hv := hsingle
    simp only [decodesValidShare, hd] at hv
    dsimp only
    rw [hv]
    simp only [Bool.false_eq_true, if_false]
    rw [hscan]

/-- Claim C9, witness: a plain word with a decode oracle that decodes
nothing is tagged encrypted with itself as content. -/
theorem parseShareContent_fallback_spec_witness :
    parseShareContent (fun _ => none) "hello" = .encrypted "hello" := by
  have h := parseShareContent_fallback_spec (fun _ => none) "hello"
    (by decide) (by decide) (by decide) (by decide)
  exact h.trans (by decide)

/-- Claim C10: on every input list the validator accounts for every entry —
each entry either increments `validCount` or contributes exactly one
per-line invalid-format error, and the returned error list starts with
exactly those per-line errors (decode failures never escape the loop). -/
theorem validate_total_accounting (dec : String → Option ShareData) (l : List ShareInput) :
    (validateShareCollection dec l).validCount + (perLineErrors dec 0 l).length = l.length
    ∧ ∃ rest, (validateShareCollection dec l).errors = perLineErrors dec 0 l ++ rest := by
  rw [validateShareCollection_eq]
  constructor
  · rw [vscAssemble_validCount]
    exact acceptedShares_length_add_perLineErrors_length dec l 0
  · exact vscAssemble_errors_extend (vscFinalState dec l)

end MnemonicShards
